import Mathlib

/-!
Shallow embedding of the `ddbimport` repository: the CSV-to-DynamoDB record
converter (`csvtodynamo/convert.go`) and the command-line pipeline
(`main.go`: delimiter selection, the local ingestion loop with its progress
counters, and the remote Step Function polling loop).

Machine integers are modelled as `Nat` (the progress counters are Go `int64`
values whose magnitude stays far below overflow for any realistic import, so
wrap-around is not modelled).  Go maps are modelled as association lists with
overwrite-on-insert; map iteration order never matters for the modelled code.
-/

namespace DDBImport

/-- DynamoDB attribute values as produced by the converter: string (`S`),
number (`N`), boolean (`BOOL`) and binary (`B`, a byte list).  The `M`
(nested map) variant of the source is not needed by any property considered
here and is omitted. -/
inductive AttributeValue where
  | S (s : String)
  | N (s : String)
  | BOOL (b : Bool)
  | B (bytes : List Nat)
  deriving DecidableEq, Repr

/-- Embeds `stringValue` from `csvtodynamo/convert.go`. -/
def stringValue (s : String) : AttributeValue := .S s

/-- Embeds `numberValue` from `csvtodynamo/convert.go`. -/
def numberValue (s : String) : AttributeValue := .N s

/-- Embeds the package-level `trueValue` of `csvtodynamo/convert.go`. -/
def trueValue : AttributeValue := .BOOL true

/-- Embeds the package-level `falseValue` of `csvtodynamo/convert.go`. -/
def falseValue : AttributeValue := .BOOL false

/-- Embeds the `boolValues` map of `csvtodynamo/convert.go`: its exact four
keys are "false", "FALSE", "true" and "TRUE". -/
def boolValues (s : String) : Option AttributeValue :=
  if s = "false" then some falseValue
  else if s = "FALSE" then some falseValue
  else if s = "true" then some trueValue
  else if s = "TRUE" then some trueValue
  else none

/-- Embeds `boolValue` from `csvtodynamo/convert.go`: look the text up in
`boolValues`; any miss produces `falseValue`. -/
def boolValue (s : String) : AttributeValue :=
  match boolValues s with
  | some v => v
  | none => falseValue

/-- Embeds `delimiter` from `main.go`: the strings "," and "\t" return their
own first character, "tab" returns tab, and everything else returns comma. -/
def delimiter (s : String) : Char :=
  if s = "," ∨ s = "\t" then
    -- rune(s[0]); the guard ensures s is a one-character string, so the
    -- default of headD is unreachable
    s.toList.headD ','
  else if s = "tab" then '\t'
  else ','

/-- Converted item: the Go `map[string]*dynamodb.AttributeValue`, modelled as
an association list with overwrite-on-insert. -/
abbrev Item := List (String × AttributeValue)

/-- Batch of converted items, as sent over the `batches` channel. -/
abbrev Batch := List Item

/-- Shared progress counters of `importLocal` (`main.go`): `recordCount`
starts at 0 and `batchCount` starts at 1 (`var batchCount int64 = 1`). -/
structure Counters where
  recordCount : Nat
  batchCount : Nat
  deriving DecidableEq, Repr

/-- Embeds the worker loop body of `importLocal` (`main.go` lines 291-302)
as the aggregate effect of draining the batch channel: per batch the record
counter grows by the batch length, the batch counter is incremented, and a
progress line is logged exactly when the incremented batch counter is a
multiple of 100 (the logged counter values are collected in order).  The Go
workers perform these updates with atomic adds, so the final counter values
and the set of logged counter values are interleaving-independent. -/
def drainBatches : List Batch → Counters → List Nat → Counters × List Nat
  | [], st, logs => (st, logs)
  | b :: bs, st, logs =>
    let rc := st.recordCount + b.length
    let bc := st.batchCount + 1
    drainBatches bs ⟨rc, bc⟩ (if bc % 100 = 0 then logs ++ [bc] else logs)

/-- Counter state after `importLocal` has written a list of batches, starting
from the initial counter values of `importLocal` (`main.go` lines 281-282). -/
def importLocalCounters (bs : List Batch) : Counters × List Nat :=
  drainBatches bs ⟨0, 1⟩ []

/-- Embeds the constant `sfn.ExecutionStatusRunning`. -/
def sfnExecutionStatusRunning : String := "RUNNING"

/-- Embeds the constant `sfn.ExecutionStatusSucceeded`. -/
def sfnExecutionStatusSucceeded : String := "SUCCEEDED"

/-- Outcome of the remote polling loop: either the loop stopped on a
succeeded status and handed the execution output to the JSON parser, or it
aborted fatally on some other terminal status, carrying no output. -/
inductive PollOutcome where
  | succeeded (outputPayload : String)
  | fatal (status : String)
  deriving DecidableEq, Repr

/-- Embeds the `waitForOutput` polling loop of `importRemote` (`main.go`
lines 195-215) over the sequence of statuses (each with the execution output
visible at that poll) returned by successive `DescribeExecution` calls:
a running status continues the loop, a succeeded status stops it and yields
the output for parsing, and any other status aborts fatally without touching
the output.  `none` models a poll sequence that never reached a terminal
status (the Go loop would still be polling). -/
def waitForOutput : List (String × String) → Option PollOutcome
  | [] => none
  | (status, output) :: rest =>
    if status = sfnExecutionStatusRunning then waitForOutput rest
    else if status = sfnExecutionStatusSucceeded then some (.succeeded output)
    else some (.fatal status)

/-- Base64 index of a character under the standard alphabet, embedding the
`decodeMap` of Go `encoding/base64` for `StdEncoding` (`none` marks 0xff). -/
def base64DecodeMap (c : Char) : Option Nat :=
  if 'A' ≤ c ∧ c ≤ 'Z' then some (c.toNat - 65)
  else if 'a' ≤ c ∧ c ≤ 'z' then some (c.toNat - 97 + 26)
  else if '0' ≤ c ∧ c ≤ '9' then some (c.toNat - 48 + 52)
  else if c = '+' then some 62
  else if c = '/' then some 63
  else none

/-- Position after skipping the newline characters that Go's base64 decoder
ignores, starting at `si` (fuel-driven; `src.length` fuel always suffices). -/
def base64SkipNewlines (src : List Char) : Nat → Nat → Nat
  | 0, si => si
  | fuel + 1, si =>
    match src.get? si with
    | some c => if c = '\n' ∨ c = '\r' then base64SkipNewlines src fuel (si + 1) else si
    | none => si

/-- Bytes produced from one quantum of collected sextets (`dbuf` of length
`dlen`, 2 ≤ dlen ≤ 4): the Go decoder packs them big-endian into a 24-bit
value and emits its top `dlen - 1` bytes. -/
def base64QuantumBytes (dbuf : List Nat) : List Nat :=
  let v := dbuf.getD 0 0 * 2 ^ 18 + dbuf.getD 1 0 * 2 ^ 12 +
    dbuf.getD 2 0 * 2 ^ 6 + dbuf.getD 3 0
  List.take (dbuf.length - 1) [v / 2 ^ 16 % 256, v / 2 ^ 8 % 256, v % 256]

/-- Embeds `Encoding.decodeQuantum` of Go `encoding/base64` for
`StdEncoding` (padded): starting at position `si` with the sextets collected
so far in `dbuf`, returns the next position, the bytes of this quantum and
whether a corrupt-input error was reported.  Newlines are skipped; '=' is
legal only as the third or fourth character of a quantum ("==" after two
sextets, "=" after three) and must end the input; input ending inside a
quantum is an error for a padded encoding.  On the trailing-garbage error the
quantum's bytes are still produced alongside the error, exactly as in Go. -/
def base64DecodeQuantum (src : List Char) : Nat → Nat → List Nat → Nat × List Nat × Bool
  | 0, si, _ => (si, [], true)
  | fuel + 1, si, dbuf =>
    if dbuf.length = 4 then (si, base64QuantumBytes dbuf, false)
    else
      match src.get? si with
      | none =>
        if dbuf.length = 0 then (si, [], false)
        else (si, [], true)
      | some c =>
        match base64DecodeMap c with
        | some out => base64DecodeQuantum src fuel (si + 1) (dbuf ++ [out])
        | none =>
          if c = '\n' ∨ c = '\r' then base64DecodeQuantum src fuel (si + 1) dbuf
          else if c ≠ '=' then (si + 1, [], true)
          else
            match dbuf.length with
            | 0 | 1 => (si + 1, [], true)
            | 2 =>
              let si2 := base64SkipNewlines src src.length (si + 1)
              match src.get? si2 with
              | none => (si2, [], true)
              | some c2 =>
                if c2 ≠ '=' then (si2, [], true)
                else
                  let si3 := base64SkipNewlines src src.length (si2 + 1)
                  (si3, base64QuantumBytes dbuf, decide (si3 < src.length))
            | _ =>
              let si3 := base64SkipNewlines src src.length (si + 1)
              (si3, base64QuantumBytes dbuf, decide (si3 < src.length))

/-- Embeds the quantum loop of `Encoding.Decode` of Go `encoding/base64`:
decode quanta until the input is exhausted; on a corrupt quantum return the
bytes accumulated so far (including any bytes that quantum produced) with the
error flag set.  The fast 8/4-byte assembly paths of the Go code produce the
same bytes as `decodeQuantum` on fully valid quanta and are not modelled
separately. -/
def base64DecodeLoop (src : List Char) : Nat → Nat → List Nat → List Nat × Bool
  | 0, _, acc => (acc, false)
  | fuel + 1, si, acc =>
    if si < src.length then
      match base64DecodeQuantum src (src.length + 2) si [] with
      | (nsi, bytes, corrupt) =>
        if corrupt then (acc ++ bytes, true)
        else if nsi ≤ si then (acc ++ bytes, false)
        else base64DecodeLoop src fuel nsi (acc ++ bytes)
    else (acc, false)

/-- Embeds `base64.StdEncoding.DecodeString`: the decoded bytes together with
an error flag (Go returns the bytes written so far alongside the error). -/
def base64DecodeString (s : String) : List Nat × Bool :=
  base64DecodeLoop s.toList (s.length + 1) 0 []

/-- Embeds `binValue` from `csvtodynamo/convert.go`: base64-decode the text
and keep the bytes, discarding the error (`b, _ := ...DecodeString(s)`). -/
def binValue (s : String) : AttributeValue := .B (base64DecodeString s).1

/-- Conversion rules that the configuration can register per column name,
corresponding to the `keyConverter` functions installed by the `Add*Keys`
builders of `csvtodynamo/convert.go` (`mapValue` is omitted: no property
considered here concerns it). -/
inductive KeyConverterKind where
  | str
  | num
  | boolean
  | bin
  deriving DecidableEq, Repr

/-- Applies a registered converter, mirroring the function values stored in
`Configuration.KeyToConverter`. -/
def applyKeyConverter : KeyConverterKind → String → AttributeValue
  | .str, s => stringValue s
  | .num, s => numberValue s
  | .boolean, s => boolValue s
  | .bin, s => binValue s

/-- Embeds `Configuration` from `csvtodynamo/convert.go`.  The Go map
`KeyToConverter` is an association list where the most recent insertion is
found first. -/
structure Configuration where
  keyToConverter : List (String × KeyConverterKind)
  columns : List String
  keyColumns : List String
  deriving DecidableEq, Repr

/-- Embeds `NewConfiguration`. -/
def newConfiguration : Configuration := ⟨[], [], []⟩

/-- Embeds `Configuration.AddStringKeys`. -/
def Configuration.addStringKeys (conf : Configuration) (s : List String) : Configuration :=
  s.foldl (fun c k => { c with keyToConverter := (k, .str) :: c.keyToConverter }) conf

/-- Embeds `Configuration.AddNumberKeys`. -/
def Configuration.addNumberKeys (conf : Configuration) (s : List String) : Configuration :=
  s.foldl (fun c k => { c with keyToConverter := (k, .num) :: c.keyToConverter }) conf

/-- Embeds `Configuration.AddBoolKeys`. -/
def Configuration.addBoolKeys (conf : Configuration) (s : List String) : Configuration :=
  s.foldl (fun c k => { c with keyToConverter := (k, .boolean) :: c.keyToConverter }) conf

/-- Embeds `Configuration.AddBinKeys`. -/
def Configuration.addBinKeys (conf : Configuration) (s : List String) : Configuration :=
  s.foldl (fun c k => { c with keyToConverter := (k, .bin) :: c.keyToConverter }) conf

/-- Embeds `Configuration.AddKeyColumns`. -/
def Configuration.addKeyColumns (conf : Configuration) (s : List String) : Configuration :=
  { conf with keyColumns := conf.keyColumns ++ s }

/-- Signals returned by the embedded CSV reader and converter: end of input
(`io.EOF`) or a row whose field count differs from the fixed one
(`csv.ErrFieldCount`). -/
inductive CSVError where
  | eof
  | errFieldCount
  deriving DecidableEq, Repr

/-- The state of Go's `csv.Reader` at the row level: the parsed rows still to
be delivered, and `FieldsPerRecord` once it has been fixed (Go initialises it
to 0, meaning "set from the first record read"; that phase is `none` here).
Row-level modelling is faithful for the converter, which only ever consumes
whole parsed records. -/
structure CSVReader where
  rows : List (List String)
  fieldsPerRecord : Option Nat
  deriving DecidableEq, Repr

/-- Embeds `csv.Reader.Read`: end of input yields `io.EOF`; the first record
fixes the expected field count; a later record with a different field count
is returned together with `csv.ErrFieldCount` (Go returns the record and the
error), and reading continues past it. -/
def CSVReader.read : CSVReader → List String × Option CSVError × CSVReader
  | ⟨[], fpr⟩ => ([], some .eof, ⟨[], fpr⟩)
  | ⟨record :: rest, none⟩ => (record, none, ⟨rest, some record.length⟩)
  | ⟨record :: rest, some n⟩ =>
    if record.length = n then (record, none, ⟨rest, some n⟩)
    else (record, some .errFieldCount, ⟨rest, some n⟩)

/-- Embeds `Converter` from `csvtodynamo/convert.go`.  `columnNamesToInclude`
is the Go set-map built from `KeyColumns`; the empty list is Go's nil map. -/
structure Converter where
  r : CSVReader
  conf : Configuration
  columnNames : List String
  columnNamesToInclude : List String
  deriving DecidableEq, Repr

/-- Embeds `Converter.dynamoValue`: use the converter registered for the
column, defaulting to `stringValue`. -/
def Converter.dynamoValue (c : Converter) (key value : String) : AttributeValue :=
  match c.conf.keyToConverter.lookup key with
  | some f => applyKeyConverter f value
  | none => stringValue value

/-- Go map assignment `items[column] = v`: overwrite an existing key,
otherwise append. -/
def mapInsert (m : Item) (k : String) (v : AttributeValue) : Item :=
  if m.any (fun p => p.1 = k) then m.map (fun p => if p.1 = k then (k, v) else p)
  else m ++ [(k, v)]

/-- Embeds the `for i, column := range c.columnNames` loop of
`Converter.Read` (`csvtodynamo/convert.go` lines 122-129): skip columns not
in a non-empty allow-list, elide empty raw text, convert the rest.  `record`
is indexed by the running position `i`; `none` models the Go run-time panic
(index out of range) raised by `record[i]` when the row is shorter than the
column-name list. -/
def Converter.readLoop (c : Converter) (record : List String) :
    Nat → List String → Item → Option Item
  | _, [], items => some items
  | i, column :: rest, items =>
    if c.columnNamesToInclude ≠ [] ∧ column ∉ c.columnNamesToInclude then
      c.readLoop record (i + 1) rest items
    else
      match record.get? i with
      | none => none
      | some v =>
        if v.length ≠ 0 then
          c.readLoop record (i + 1) rest (mapInsert items column (c.dynamoValue column v))
        else c.readLoop record (i + 1) rest items

/-- Result of `Converter.Read`: a converted item, a failure carrying no item
(Go returns a nil map together with the error), or the index-out-of-range
panic of `record[i]`. -/
inductive ReadResult where
  | ok (items : Item)
  | fail (e : CSVError)
  | outOfRange
  deriving DecidableEq, Repr

/-- Embeds `Converter.Read` (`csvtodynamo/convert.go` lines 116-131): read
one row; any reader error is returned with no item; otherwise build the item
from the column names. -/
def Converter.read (c : Converter) : ReadResult × Converter :=
  match c.r.read with
  | (record, err, r') =>
    let c' := { c with r := r' }
    match err with
    | some e => (.fail e, c')
    | none =>
      match c'.readLoop record 0 c'.columnNames [] with
      | some items => (.ok items, c')
      | none => (.outOfRange, c')

/-- Batch size of `Converter.ReadBatch`. -/
def batchSize : Nat := 25

/-- Embeds the loop of `Converter.ReadBatch`: call `Read` until the fuel
(`batchSize - read`) runs out or an error stops the loop; the accumulated
items are `items[:read]`.  `none` propagates the out-of-range panic. -/
def Converter.readBatchAux : Converter → Nat → List Item → Option (List Item × Option CSVError) × Converter
  | c, 0, acc => (some (acc, none), c)
  | c, fuel + 1, acc =>
    match c.read with
    | (.ok items, c') => c'.readBatchAux fuel (acc ++ [items])
    | (.fail e, c') => (some (acc, some e), c')
    | (.outOfRange, c') => (none, c')

/-- Embeds `Converter.ReadBatch` (`csvtodynamo/convert.go` lines 103-113):
returns `items[:read]`, the count `read` of successful reads, and the error
that stopped the loop (none when 25 items were read). -/
def Converter.readBatch (c : Converter) : Option (List Item × Nat × Option CSVError) × Converter :=
  match c.readBatchAux batchSize [] with
  | (some (items, err), c') => (some (items, items.length, err), c')
  | (none, c') => (none, c')

/-- Embeds `Converter.init` (`csvtodynamo/convert.go` lines 80-99): build the
allow-list from `KeyColumns` when non-empty; take explicit `Columns` as the
column names when supplied, otherwise consume the first row as the header.
(The Go guard `if c.columnNames == nil` is always true at that point, since
nothing has set the field yet.) -/
def Converter.init (c : Converter) : Converter × Option CSVError :=
  let c1 := if c.conf.keyColumns ≠ [] then { c with columnNamesToInclude := c.conf.keyColumns } else c
  if c1.conf.columns ≠ [] then ({ c1 with columnNames := c1.conf.columns }, none)
  else
    match c1.r.read with
    | (record, err, r') =>
      let c2 := { c1 with r := r' }
      match err with
      | some e => (c2, some e)
      | none => ({ c2 with columnNames := record }, none)

/-- Embeds `NewConverter` applied to a `csv.Reader` over the given parsed
rows (a fresh reader has `FieldsPerRecord` unset). -/
def newConverter (rows : List (List String)) (conf : Configuration) : Converter × Option CSVError :=
  Converter.init ⟨⟨rows, none⟩, conf, [], []⟩

/-- Embeds the ingestion loop of `importLocal` (`main.go` lines 307-318) as
the list of batches pushed onto the `batches` channel (the sink is invoked
once per enqueued batch by the worker pool): read a batch; a non-EOF error is
fatal before enqueuing (`none`); the batch is enqueued, and EOF then stops
the loop.  The fuel only bounds the modelled iteration count; `none` from
exhausted fuel never arises in the theorems below, which supply enough. -/
def ingestLoop : Converter → Nat → List Batch → Option (List Batch)
  | _, 0, _ => none
  | c, fuel + 1, acc =>
    match c.readBatch with
    | (some (items, _, err), c') =>
      match err with
      | none => ingestLoop c' fuel (acc ++ [items])
      | some .eof => some (acc ++ [items])
      | some _ => none
    | (none, _) => none

/-! Theorems. -/

/-- C1 (counterexample): the claim says conversion of boolean text is
case-insensitive, so "True" — a casing of "true" — would map to true; the
code maps it to false, because the `boolValues` map holds only the four
exact spellings. -/
theorem boolValue_mixed_case_cex :
    boolValue "True" = AttributeValue.BOOL false ∧
    AttributeValue.BOOL false ≠ AttributeValue.BOOL true := by
  decide

/-- C1 (amended): for every boolean-schema column, conversion of the raw
text recognises exactly the four literal spellings — "true" and "TRUE" map
to true, "false" and "FALSE" map to false — and every other text (mixed-case
spellings such as "True" included, e.g. "yes") maps to false. -/
theorem boolValue_spec :
    boolValue "true" = AttributeValue.BOOL true ∧
    boolValue "TRUE" = AttributeValue.BOOL true ∧
    boolValue "false" = AttributeValue.BOOL false ∧
    boolValue "FALSE" = AttributeValue.BOOL false ∧
    ∀ s : String, s ≠ "true" → s ≠ "TRUE" → boolValue s = AttributeValue.BOOL false := by
  refine ⟨rfl, rfl, rfl, rfl, ?_⟩
  intro s h1 h2
  have hb : boolValues s = none ∨ boolValues s = some falseValue := by
    unfold boolValues
    by_cases hf : s = "false"
    · simp [hf]
    · by_cases hF : s = "FALSE"
      · simp [hf, hF]
      · simp [hf, hF, h1, h2]
  rcases hb with hb | hb <;> simp [boolValue, hb, falseValue]

/-- C1 (witness): the amended theorem applied at the concrete text "yes". -/
theorem boolValue_spec_witness : boolValue "yes" = AttributeValue.BOOL false :=
  boolValue_spec.2.2.2.2 "yes" (by decide) (by decide)

/-- C2 (counterexample): "QUJD!" is not valid base64 (the decoder reports an
error on it), yet the converted value holds the three bytes of its valid
leading quantum, not empty bytes. -/
theorem binValue_invalid_nonempty_cex :
    (base64DecodeString "QUJD!").2 = true ∧
    binValue "QUJD!" = AttributeValue.B [65, 66, 67] ∧
    AttributeValue.B [65, 66, 67] ≠ AttributeValue.B [] := by
  decide

/-- C2 (amended): for every binary-schema column the raw text is
base64-decoded and the decode error is discarded, so no error is ever
raised; an input that is not valid base64 yields the bytes decoded before
the error — possibly non-empty (e.g. "QUJD!" yields the three bytes of
"ABC") and empty when the error occurs in the first 4-character group
(e.g. "!") — and the valid input "F9vBa7O+Ee6/7gJCrGMAFA==" yields its 16
decoded bytes. -/
theorem binValue_spec :
    (∀ s : String, binValue s = AttributeValue.B (base64DecodeString s).1) ∧
    binValue "F9vBa7O+Ee6/7gJCrGMAFA=="
      = AttributeValue.B [23, 219, 193, 107, 179, 190, 17, 238, 191, 238, 2, 66, 172, 99, 0, 20] ∧
    (base64DecodeString "F9vBa7O+Ee6/7gJCrGMAFA==").2 = false ∧
    binValue "QUJD!" = AttributeValue.B [65, 66, 67] ∧
    (base64DecodeString "QUJD!").2 = true ∧
    binValue "!" = AttributeValue.B [] ∧
    (base64DecodeString "!").2 = true :=
  ⟨fun _ => rfl, by decide, by decide, by decide, by decide, by decide, by decide⟩

/-- C6 (counterexample): the claim says every input other than "tab" and
"comma" selects comma, but the one-character string "\t" selects tab. -/
theorem delimiter_tab_char_cex :
    delimiter "\t" = '\t' ∧ ('\t' : Char) ≠ ',' := by
  decide

/-- C6 (amended): the delimiter selection function maps "tab" and the
literal one-character strings "," and "\t" to their respective characters,
and every other input string — "comma" included — to comma. -/
theorem delimiter_spec :
    delimiter "comma" = ',' ∧ delimiter "," = ',' ∧
    delimiter "tab" = '\t' ∧ delimiter "\t" = '\t' ∧
    ∀ s : String, s ≠ "," → s ≠ "\t" → s ≠ "tab" → delimiter s = ',' := by
  refine ⟨by decide, by decide, by decide, by decide, ?_⟩
  intro s h1 h2 h3
  have hor : ¬(s = "," ∨ s = "\t") := by
    rintro (h | h)
    · exact h1 h
    · exact h2 h
  unfold delimiter
  rw [if_neg hor, if_neg h3]

/-- C6 (witness): the amended theorem applied at the concrete input
"semicolon". -/
theorem delimiter_spec_witness : delimiter "semicolon" = ',' :=
  delimiter_spec.2.2.2.2 "semicolon" (by decide) (by decide) (by decide)

/-- C8: in the polling loop of remote mode, a running status continues the
loop, a succeeded status stops it and hands the execution output to the
parser, and any other terminal status aborts fatally with an outcome that
carries no output to parse. -/
theorem waitForOutput_spec :
    (∀ (polls : List (String × String)) (output : String),
      waitForOutput ((sfnExecutionStatusRunning, output) :: polls) = waitForOutput polls) ∧
    (∀ (polls : List (String × String)) (output : String),
      waitForOutput ((sfnExecutionStatusSucceeded, output) :: polls)
        = some (PollOutcome.succeeded output)) ∧
    (∀ (polls : List (String × String)) (status output : String),
      status ≠ sfnExecutionStatusRunning → status ≠ sfnExecutionStatusSucceeded →
      waitForOutput ((status, output) :: polls) = some (PollOutcome.fatal status)) := by
  refine ⟨fun polls output => ?_, fun polls output => ?_,
    fun polls status output h1 h2 => ?_⟩
  · rw [waitForOutput, if_pos rfl]
  · rw [waitForOutput, if_neg (by decide), if_pos rfl]
  · rw [waitForOutput, if_neg h1, if_neg h2]

/-- C8 (witness): the polling theorem applied at the concrete status
sequence RUNNING, FAILED. -/
theorem waitForOutput_spec_witness :
    waitForOutput [("RUNNING", "out"), ("FAILED", "out")]
      = some (PollOutcome.fatal "FAILED") :=
  (waitForOutput_spec.1 [("FAILED", "out")] "out").trans
    (waitForOutput_spec.2.2 [] "FAILED" "out" (by decide) (by decide))

/-- Helper: the effect of draining a list of batches from arbitrary counter
values — records grow by the total size, the batch counter by the batch
count, and the logged values are the post-increment batch counters that are
multiples of 100. -/
theorem drainBatches_spec (bs : List Batch) :
    ∀ (r0 b0 : Nat) (logs : List Nat),
      drainBatches bs ⟨r0, b0⟩ logs =
        (⟨r0 + (bs.map List.length).sum, b0 + bs.length⟩,
         logs ++ ((List.range bs.length).map (fun i => b0 + i + 1)).filter
           (fun m => m % 100 = 0)) := by
  induction bs with
  | nil => intro r0 b0 logs; simp [drainBatches]
  | cons b bs ih =>
    intro r0 b0 logs
    rw [drainBatches]
    dsimp only
    rw [ih]
    have hmap : (List.range bs.length).map ((fun i => b0 + i + 1) ∘ Nat.succ)
        = (List.range bs.length).map (fun i => b0 + 1 + i + 1) := by
      apply List.map_congr_left
      intro i _
      simp only [Function.comp]
      omega
    simp only [List.length_cons, List.map_cons, List.sum_cons, List.range_succ_eq_map,
      List.map_map, List.filter_cons, hmap]
    simp only [Prod.mk.injEq, Counters.mk.injEq]
    refine ⟨⟨by omega, by omega⟩, ?_⟩
    by_cases h100 : (b0 + 1) % 100 = 0
    · simp [h100, List.append_assoc]
    · simp [h100]

/-- C7 (counterexample): after one successful batch write of one record the
batches-written counter holds 2, not 1 — `importLocal` initialises it to 1
(`var batchCount int64 = 1`), so it never equals the number of batches
written. -/
theorem counters_off_by_one_cex :
    importLocalCounters [[[("a", AttributeValue.S "x")]]]
      = (⟨1, 2⟩, []) ∧ (2 : Nat) ≠ 1 := by
  decide

/-- C7 (amended): the records counter starts at 0 and the batches counter
starts at 1 at pipeline start; each successful batch write adds the batch
size to the former and increments the latter, so after k batches totalling r
records the records counter equals r and the batches counter equals k + 1;
progress is logged exactly when the post-increment batch counter i + 1
(after the i-th batch) is a multiple of 100, i.e. after batches 99, 199, ….
-/
theorem importLocalCounters_spec (bs : List Batch) :
    importLocalCounters bs =
      (⟨(bs.map List.length).sum, bs.length + 1⟩,
       ((List.range bs.length).map (fun i => i + 2)).filter (fun m => m % 100 = 0)) := by
  rw [importLocalCounters, drainBatches_spec]
  have hmap : (List.range bs.length).map (fun i => 1 + i + 1)
      = (List.range bs.length).map (fun i => i + 2) := by
    apply List.map_congr_left
    intro i _
    omega
  rw [hmap]
  simp only [Prod.mk.injEq, Counters.mk.injEq]
  exact ⟨⟨by omega, by omega⟩, by simp⟩

/-- C4: with column names taken from the header row, reading a row whose
field count differs from the header arity fails with the field-count signal
and produces no partial item — the `fail` result carries no item, exactly as
the Go code returns a nil map alongside the error. -/
theorem read_field_count_mismatch (header record : List String)
    (rest : List (List String)) (conf : Configuration)
    (hcols : conf.columns = []) (hne : record.length ≠ header.length) :
    (newConverter (header :: record :: rest) conf).2 = none ∧
    ((newConverter (header :: record :: rest) conf).1.read).1
      = ReadResult.fail CSVError.errFieldCount := by
  obtain ⟨ktc, cols, kc⟩ := conf
  dsimp at hcols
  subst hcols
  by_cases hkc : kc = []
  · subst hkc
    simp [newConverter, Converter.init, CSVReader.read, Converter.read, hne]
  · simp [newConverter, Converter.init, CSVReader.read, Converter.read, hne, hkc]

/-- C4 (witness): the theorem applied at the first test case of
`convert_test.go` — header "a,b,c" and row "1,2,3,4". -/
theorem read_field_count_mismatch_witness :
    (newConverter [["a", "b", "c"], ["1", "2", "3", "4"]] newConfiguration).2 = none ∧
    ((newConverter [["a", "b", "c"], ["1", "2", "3", "4"]] newConfiguration).1.read).1
      = ReadResult.fail CSVError.errFieldCount :=
  read_field_count_mismatch ["a", "b", "c"] ["1", "2", "3", "4"] [] newConfiguration
    (by decide) (by decide)

/-- Helper: inserting under a different key never makes `target` appear
among an item's column names. -/
theorem mapInsert_keys_not_mem (m : Item) (k target : String) (v : AttributeValue)
    (hk : k ≠ target) (hm : target ∉ m.map Prod.fst) :
    target ∉ (mapInsert m k v).map Prod.fst := by
  unfold mapInsert
  split_ifs with h
  · intro hmem
    simp only [List.map_map] at hmem
    obtain ⟨p, hpm, heq⟩ := List.mem_map.mp hmem
    by_cases hp1 : p.1 = k
    · simp only [Function.comp, hp1, if_pos] at heq
      exact hk heq
    · simp only [Function.comp, hp1, if_neg, ite_false] at heq
      exact hm (List.mem_map.mpr ⟨p, hpm, heq⟩)
  · intro hmem
    rw [List.map_append] at hmem
    rcases List.mem_append.mp hmem with hmem | hmem
    · exact hm hmem
    · simp at hmem
      exact hk hmem.symm

/-- Helper: the conversion loop of `Converter.Read` never inserts a column
whose raw text is empty at every position where the column name occurs. -/
theorem readLoop_absent (c : Converter) (record : List String) (target : String) :
    ∀ (cols : List String) (i : Nat) (items out : Item),
      target ∉ items.map Prod.fst →
      (∀ j, cols.get? j = some target → record.get? (i + j) = some "") →
      c.readLoop record i cols items = some out →
      target ∉ out.map Prod.fst := by
  intro cols
  induction cols with
  | nil =>
    intro i items out hitems _ hrun
    simp only [Converter.readLoop, Option.some.injEq] at hrun
    exact hrun ▸ hitems
  | cons column rest ih =>
    intro i items out hitems hempty hrun
    have hshift : ∀ j, rest.get? j = some target → record.get? (i + 1 + j) = some "" := by
      intro j hj
      have := hempty (j + 1) (by simpa using hj)
      have harith : i + (j + 1) = i + 1 + j := by omega
      rwa [harith] at this
    rw [Converter.readLoop] at hrun
    split at hrun
    · exact ih (i + 1) items out hitems hshift hrun
    · cases hv : record.get? i with
      | none => rw [hv] at hrun; exact absurd hrun (by simp)
      | some v =>
        rw [hv] at hrun
        dsimp only at hrun
        by_cases hvlen : v.length ≠ 0
        · rw [if_pos hvlen] at hrun
          by_cases hcol : column = target
          · have hvempty := hempty 0 (by simpa using congrArg some hcol)
            rw [Nat.add_zero, hv] at hvempty
            have : v = "" := by simpa using hvempty
            subst this
            exact absurd hvlen (by decide)
          · exact ih (i + 1) _ out
              (mapInsert_keys_not_mem items column target _ hcol hitems) hshift hrun
        · rw [if_neg hvlen] at hrun
          exact ih (i + 1) items out hitems hshift hrun

/-- C5: for a row that `read` converts successfully, any column name whose
raw text is the empty string at every position where it occurs in the column
list is absent from the converted item — it is never stored as an empty or
zero value. -/
theorem read_empty_text_absent (c : Converter) (record : List String)
    (rest : List (List String)) (target : String) (items : Item) (c' : Converter)
    (hrows : c.r.rows = record :: rest)
    (hempty : ∀ j, j < c.columnNames.length →
      c.columnNames.get? j = some target → record.get? j = some "")
    (hread : c.read = (ReadResult.ok items, c')) :
    target ∉ items.map Prod.fst := by
  obtain ⟨⟨rows, fpr⟩, conf, cols, incl⟩ := c
  dsimp at hrows hempty
  subst hrows
  have hempty0 : ∀ j, cols.get? j = some target → record.get? (0 + j) = some "" := by
    intro j hj
    have hlt : j < cols.length := by
      by_contra hge
      rw [List.get?_eq_none.mpr (by omega)] at hj
      exact absurd hj (by simp)
    rw [Nat.zero_add]
    exact hempty j hlt hj
  cases fpr with
  | none =>
    rw [Converter.read] at hread
    simp only [CSVReader.read] at hread
    cases hloop : Converter.readLoop ⟨⟨rest, some record.length⟩, conf, cols, incl⟩
        record 0 cols [] with
    | none => rw [hloop] at hread; exact absurd hread (by simp)
    | some its =>
      rw [hloop] at hread
      simp only [Prod.mk.injEq, ReadResult.ok.injEq] at hread
      exact hread.1 ▸ readLoop_absent _ record target cols 0 [] its (by simp) hempty0 hloop
  | some n =>
    rw [Converter.read] at hread
    simp only [CSVReader.read] at hread
    by_cases hlen : record.length = n
    · rw [if_pos hlen] at hread
      cases hloop : Converter.readLoop ⟨⟨rest, some n⟩, conf, cols, incl⟩
          record 0 cols [] with
      | none => rw [hloop] at hread; exact absurd hread (by simp)
      | some its =>
        rw [hloop] at hread
        simp only [Prod.mk.injEq, ReadResult.ok.injEq] at hread
        exact hread.1 ▸ readLoop_absent _ record target cols 0 [] its (by simp) hempty0 hloop
    · rw [if_neg hlen] at hread
      exact absurd hread (by simp)

/-- C5 (witness): the theorem applied at the "empty values are not included"
test case of `convert_test.go` — header "a,b,c", row "the,,cork": column "b"
is absent from the converted item. -/
theorem read_empty_text_absent_witness :
    "b" ∉ ([("a", AttributeValue.S "the"), ("c", AttributeValue.S "cork")] : Item).map
      Prod.fst :=
  read_empty_text_absent
    (newConverter [["a", "b", "c"], ["the", "", "cork"]] newConfiguration).1
    ["the", "", "cork"] [] "b"
    [("a", AttributeValue.S "the"), ("c", AttributeValue.S "cork")]
    ⟨⟨[], some 3⟩, newConfiguration, ["a", "b", "c"], []⟩
    (by decide) (by decide) (by decide)

/-- Helper: the conversion loop succeeds whenever the row is long enough for
every remaining column position. -/
theorem readLoop_total (c : Converter) (record : List String) :
    ∀ (cols : List String) (i : Nat) (items : Item),
      i + cols.length ≤ record.length →
      ∃ out, c.readLoop record i cols items = some out := by
  intro cols
  induction cols with
  | nil =>
    intro i items _
    exact ⟨items, by simp [Converter.readLoop]⟩
  | cons column rest ih =>
    intro i items hlen
    have hi : i < record.length := by
      simp only [List.length_cons] at hlen
      omega
    have hnext : i + 1 + rest.length ≤ record.length := by
      simp only [List.length_cons] at hlen
      omega
    obtain ⟨v, hv⟩ : ∃ v, record.get? i = some v := by
      cases hv : record.get? i with
      | none => exact absurd (List.get?_eq_none.mp hv) (by omega)
      | some v => exact ⟨v, rfl⟩
    rw [Converter.readLoop]
    split
    · exact ih (i + 1) items hnext
    · rw [hv]
      dsimp only
      by_cases hvlen : v.length ≠ 0
      · rw [if_pos hvlen]
        exact ih (i + 1) _ hnext
      · rw [if_neg hvlen]
        exact ih (i + 1) items hnext

/-- Helper: on an exhausted reader, `read` returns EOF and leaves the
converter unchanged. -/
theorem read_eof (c : Converter) (hrows : c.r.rows = []) :
    c.read = (ReadResult.fail CSVError.eof, c) := by
  obtain ⟨⟨rows, fpr⟩, conf, cols, incl⟩ := c
  dsimp at hrows
  subst hrows
  rfl

/-- Helper: on a well-formed next row, `read` succeeds with some item and
advances only the reader state. -/
theorem read_ok (c : Converter) (record : List String) (rest : List (List String)) (n : Nat)
    (hrows : c.r.rows = record :: rest) (hfpr : c.r.fieldsPerRecord = some n)
    (hlen : record.length = n) (hcols : c.columnNames.length ≤ n) :
    ∃ items, c.read = (ReadResult.ok items, { c with r := ⟨rest, some n⟩ }) := by
  obtain ⟨⟨rows, fpr⟩, conf, cols, incl⟩ := c
  dsimp at hrows hfpr hcols
  subst hrows hfpr
  obtain ⟨out, hout⟩ := readLoop_total ⟨⟨rest, some n⟩, conf, cols, incl⟩ record cols 0 []
    (by omega)
  refine ⟨out, ?_⟩
  rw [Converter.read]
  simp only [CSVReader.read, if_pos hlen]
  rw [hout]

/-- Helper: full characterisation of the `ReadBatch` loop on a well-formed
reader — it consumes `min fuel rows` rows, reports EOF exactly when the
input ran out before the fuel, and leaves the remaining rows. -/
theorem readBatchAux_spec (n : Nat) :
    ∀ (fuel : Nat) (c : Converter) (acc : List Item),
      c.r.fieldsPerRecord = some n → c.columnNames.length ≤ n →
      (∀ record ∈ c.r.rows, record.length = n) →
      ∃ (newItems : List Item) (c' : Converter),
        c.readBatchAux fuel acc =
          (some (acc ++ newItems,
            if c.r.rows.length < fuel then some CSVError.eof else none), c') ∧
        newItems.length = min fuel c.r.rows.length ∧
        c' = { c with r := ⟨c.r.rows.drop fuel, some n⟩ } := by
  intro fuel
  induction fuel with
  | zero =>
    intro c acc h1 h2 h3
    refine ⟨[], c, by simp [Converter.readBatchAux], by simp, ?_⟩
    obtain ⟨⟨rows, fpr⟩, conf, cols, incl⟩ := c
    dsimp at h1
    subst h1
    rfl
  | succ fuel ih =>
    intro c acc h1 h2 h3
    obtain ⟨⟨rows, fpr⟩, conf, cols, incl⟩ := c
    dsimp at h1 h2 h3 ⊢
    subst h1
    cases rows with
    | nil =>
      refine ⟨[], ⟨⟨[], some n⟩, conf, cols, incl⟩, ?_, by simp, rfl⟩
      rw [Converter.readBatchAux, read_eof _ rfl]
      simp
    | cons record rest =>
      obtain ⟨items, hread⟩ := read_ok ⟨⟨record :: rest, some n⟩, conf, cols, incl⟩
        record rest n rfl rfl (h3 record (List.mem_cons_self record rest)) h2
      obtain ⟨ni, c', heq, hni, hc'⟩ := ih ⟨⟨rest, some n⟩, conf, cols, incl⟩ (acc ++ [items])
        rfl h2 (fun r hr => h3 r (List.mem_cons_of_mem record hr))
      dsimp only at hread heq hni hc'
      refine ⟨items :: ni, c', ?_, ?_, ?_⟩
      · rw [Converter.readBatchAux, hread]
        dsimp only
        rw [heq]
        simp only [List.append_assoc, List.singleton_append, List.length_cons,
          Nat.add_lt_add_iff_right]
      · rw [List.length_cons, hni, List.length_cons, Nat.succ_min_succ]
      · rw [hc', List.drop_succ_cons]

/-- C3: on a well-formed reader, `ReadBatch` reads at most 25 rows, returns
exactly the items read together with their count, and reports end-of-input
as the error value accompanying the (possibly partial) final batch exactly
when fewer than 25 rows remained: a 10-row input yields 10 items with the
signal in one call; a 30-row input yields 25 items without the signal and
leaves 5 rows (with the converter state still well formed), so the next call
yields 5 items with the signal. -/
theorem readBatch_spec (c : Converter) (n : Nat)
    (h1 : c.r.fieldsPerRecord = some n) (h2 : c.columnNames.length ≤ n)
    (h3 : ∀ record ∈ c.r.rows, record.length = n) :
    ∃ (items : List Item) (c' : Converter),
      c.readBatch = (some (items, items.length,
          if c.r.rows.length < 25 then some CSVError.eof else none), c') ∧
      items.length = min 25 c.r.rows.length ∧
      c' = { c with r := ⟨c.r.rows.drop 25, some n⟩ } := by
  obtain ⟨ni, c', heq, hni, hc'⟩ := readBatchAux_spec n 25 c [] h1 h2 h3
  refine ⟨ni, c', ?_, hni, hc'⟩
  rw [Converter.readBatch]
  have hbs : batchSize = 25 := rfl
  rw [hbs, heq]
  simp

/-- C3 (witness): the theorem applied at a concrete converter holding 10
one-column rows — one call returns 10 items together with the end-of-input
signal. -/
theorem readBatch_spec_witness :
    ∃ (items : List Item) (c' : Converter),
      (newConverter (["a"] :: List.replicate 10 ["x"]) newConfiguration).1.readBatch
        = (some (items, items.length, some CSVError.eof), c') ∧ items.length = 10 := by
  obtain ⟨items, c', heq, hlen, _⟩ :=
    readBatch_spec (newConverter (["a"] :: List.replicate 10 ["x"]) newConfiguration).1 1
      (by decide) (by decide) (by decide)
  have h10 : (newConverter (["a"] :: List.replicate 10 ["x"]) newConfiguration).1.r.rows.length
      = 10 := by decide
  rw [h10] at heq hlen
  norm_num at heq hlen
  exact ⟨items, c', heq, hlen⟩

/-- Helper: with no allow-list, the conversion loop hits an out-of-range
index whenever the row is shorter than the remaining column positions. -/
theorem readLoop_oob (c : Converter) (record : List String)
    (hincl : c.columnNamesToInclude = []) :
    ∀ (cols : List String) (i : Nat) (items : Item),
      record.length < i + cols.length → i ≤ record.length →
      c.readLoop record i cols items = none := by
  intro cols
  induction cols with
  | nil =>
    intro i items h1 h2
    simp only [List.length_nil] at h1
    omega
  | cons column rest ih =>
    intro i items h1 h2
    have hskip : ¬(c.columnNamesToInclude ≠ [] ∧ column ∉ c.columnNamesToInclude) := by
      simp [hincl]
    rw [Converter.readLoop, if_neg hskip]
    cases hv : record.get? i with
    | none => rfl
    | some v =>
      have hi : i < record.length := by
        by_contra hge
        rw [List.get?_eq_none.mpr (by omega)] at hv
        exact absurd hv (by simp)
      have hb1 : record.length < i + 1 + rest.length := by
        simp only [List.length_cons] at h1
        omega
      dsimp only
      by_cases hvlen : v.length ≠ 0
      · rw [if_pos hvlen]
        exact ih (i + 1) _ hb1 (by omega)
      · rw [if_neg hvlen]
        exact ih (i + 1) items hb1 (by omega)

/-- C9: when the schema supplies explicit columns, the CSV reader's arity
check is fixed by the first data row rather than by the column list, so a
first data row shorter than the explicit column list makes `read` index the
row out of bounds (the Go run-time panic) instead of returning the
field-count-mismatch signal. -/
theorem read_short_row_out_of_range (conf : Configuration) (record : List String)
    (rest : List (List String))
    (hcols : conf.columns ≠ []) (hkc : conf.keyColumns = [])
    (hshort : record.length < conf.columns.length) :
    (newConverter (record :: rest) conf).2 = none ∧
    ((newConverter (record :: rest) conf).1.read).1 = ReadResult.outOfRange ∧
    ((newConverter (record :: rest) conf).1.read).1 ≠ ReadResult.fail CSVError.errFieldCount := by
  obtain ⟨ktc, cols, kc⟩ := conf
  dsimp at hcols hkc hshort
  subst hkc
  have hconv : newConverter (record :: rest) ⟨ktc, cols, []⟩
      = (⟨⟨record :: rest, none⟩, ⟨ktc, cols, []⟩, cols, []⟩, none) := by
    simp [newConverter, Converter.init, hcols]
  rw [hconv]
  refine ⟨rfl, ?_, ?_⟩
  · rw [Converter.read]
    simp only [CSVReader.read]
    rw [readLoop_oob _ record rfl cols 0 [] (by omega) (by omega)]
  · rw [Converter.read]
    simp only [CSVReader.read]
    rw [readLoop_oob _ record rfl cols 0 [] (by omega) (by omega)]
    simp

/-- C9 (witness): the theorem applied at explicit columns a,b,c and the
two-field first data row x,y. -/
theorem read_short_row_out_of_range_witness :
    (newConverter [["x", "y"]] ⟨[], ["a", "b", "c"], []⟩).2 = none ∧
    ((newConverter [["x", "y"]] ⟨[], ["a", "b", "c"], []⟩).1.read).1 = ReadResult.outOfRange ∧
    ((newConverter [["x", "y"]] ⟨[], ["a", "b", "c"], []⟩).1.read).1
      ≠ ReadResult.fail CSVError.errFieldCount :=
  read_short_row_out_of_range ⟨[], ["a", "b", "c"], []⟩ ["x", "y"] []
    (by decide) (by decide) (by decide)

/-- Helper: the ingestion loop on a well-formed converter holding an exact
multiple of 25 rows enqueues the full batches and then one final empty
batch. -/
theorem ingestLoop_mul25 (n : Nat) :
    ∀ (k : Nat) (c : Converter) (acc : List Batch),
      c.r.fieldsPerRecord = some n → c.columnNames.length ≤ n →
      (∀ record ∈ c.r.rows, record.length = n) →
      c.r.rows.length = 25 * k →
      ∃ bs : List Batch, ingestLoop c (k + 1) acc = some (acc ++ bs ++ [[]]) ∧
        bs.length = k ∧ ∀ b ∈ bs, b.length = 25 := by
  intro k
  induction k with
  | zero =>
    intro c acc h1 h2 h3 hk
    obtain ⟨items, c', heq, hlen, _⟩ := readBatch_spec c n h1 h2 h3
    rw [hk] at heq hlen
    norm_num at heq hlen
    subst hlen
    refine ⟨[], ?_, rfl, by simp⟩
    rw [ingestLoop, heq]
    simp
  | succ k ih =>
    intro c acc h1 h2 h3 hk
    obtain ⟨items, c', heq, hlen, hc'⟩ := readBatch_spec c n h1 h2 h3
    have hge : ¬(c.r.rows.length < 25) := by
      rw [hk]
      omega
    rw [if_neg hge] at heq
    have h25 : items.length = 25 := by
      rw [hlen, hk, Nat.min_eq_left (by omega)]
    obtain ⟨bs, hbs, hbl, hball⟩ := ih c' (acc ++ [items])
      (by rw [hc'])
      (by rw [hc']; exact h2)
      (by rw [hc']; intro r hr; exact h3 r (List.mem_of_mem_drop hr))
      (by rw [hc']; dsimp only; rw [List.length_drop, hk]; omega)
    refine ⟨items :: bs, ?_, by simp [hbl], ?_⟩
    · rw [ingestLoop, heq]
      dsimp only
      rw [hbs]
      simp [List.append_assoc]
    · intro b hb
      rcases List.mem_cons.mp hb with hb | hb
      · rw [hb]
        exact h25
      · exact hball b hb

/-- C10: when the remaining row count is an exact multiple of 25 (zero rows
included), the ingestion loop of `importLocal` enqueues the full batches and
then the final `ReadBatch` result — zero items accompanied by the
end-of-input signal — as one further empty batch before stopping, so the
sink is invoked exactly once with an empty batch (every earlier batch has 25
items). -/
theorem ingest_mul25_final_empty_batch (c : Converter) (n k : Nat)
    (h1 : c.r.fieldsPerRecord = some n) (h2 : c.columnNames.length ≤ n)
    (h3 : ∀ record ∈ c.r.rows, record.length = n)
    (hk : c.r.rows.length = 25 * k) :
    ∃ bs : List Batch, ingestLoop c (k + 1) [] = some (bs ++ [[]]) ∧
      bs.length = k ∧ ∀ b ∈ bs, b.length = 25 := by
  obtain ⟨bs, hbs, hbl, hball⟩ := ingestLoop_mul25 n k c [] h1 h2 h3 hk
  exact ⟨bs, by simpa using hbs, hbl, hball⟩

/-- C10 (witness): the theorem applied at a converter built from a
header-only input (zero data rows): the loop enqueues exactly one empty
batch. -/
theorem ingest_mul25_final_empty_batch_witness :
    ∃ bs : List Batch,
      ingestLoop (newConverter [["a"]] newConfiguration).1 1 [] = some (bs ++ [[]]) ∧
      bs.length = 0 ∧ ∀ b ∈ bs, b.length = 25 :=
  ingest_mul25_final_empty_batch (newConverter [["a"]] newConfiguration).1 1 0
    (by decide) (by decide) (by decide) (by decide)

end DDBImport
